import Mathlib

/-!
Verification of the graft reactive dataflow core.

This file gives a shallow embedding of the composition and reactivity core
of the graft library (component constructor, single-wire compose, the
future/feedback edge, state cells, instantiate) and proves the spec's
testable properties against it.

Modelling conventions:
* JavaScript runtime values are the inductive `GVal`; object values carry an
  allocation identity `id` so that the reference equality `===` used by the
  dedup logic (`jsEq`) is distinguishable from structural equality.
* The two sentinels (`GraftLoading`, `GraftError`) are the `loading` and
  `errv` constructors; `errv` carries an identity because `graftError`
  allocates a fresh wrapper object per occurrence.
* Zod type descriptors are the inductive `Ty`; `validate` is the opaque
  "validate value against type" capability; compatibility of two descriptors
  (the source compares the zod constructor and `_zod.def.type`) collapses to
  equality of `Ty`.
* A `MaybePromise` result is `MP`: `now v` is an immediate value, and
  `pending s` is a promise that eventually settles (`Settle`: resolves or
  rejects).  A synchronous throw from `run` is the `.error` branch of the
  surrounding `Except`.
* Props records are association lists with JavaScript lookup semantics
  (`lookupProp`: first binding wins); all embedded run functions access
  their props through `lookupProp`.
-/

namespace Graft

/-- Runtime values flowing through a graft graph.  `obj` and `errv` carry an
allocation identity so reference equality is expressible. -/
inductive GVal where
  | undef
  | num (n : Int)
  | str (s : String)
  | obj (id : Nat) (data : Int)
  | loading
  | errv (id : Nat) (msg : String)
deriving DecidableEq, Repr

/-- Transcription of `isSentinel` from types.ts: a value is a sentinel when it
is `GraftLoading` or a `GraftError` wrapper. -/
def isSentinel : GVal → Bool
  | .loading => true
  | .errv _ _ => true
  | _ => false

/-- JavaScript strict equality `===`: primitives by value, objects (including
error wrappers) by reference identity, the `GraftLoading` singleton by
identity (hence always equal to itself). -/
def jsEq : GVal → GVal → Bool
  | .undef, .undef => true
  | .num a, .num b => a == b
  | .str a, .str b => a == b
  | .obj i _, .obj j _ => i == j
  | .loading, .loading => true
  | .errv i _, .errv j _ => i == j
  | _, _ => false

/-- Zod type descriptors used by the embedded schemas.  `tany` is the
always-accepting custom type (`z.custom(() => true)`, the `View` schema). -/
inductive Ty where
  | tnum
  | tstr
  | tobj
  | tany
deriving DecidableEq, Repr

/-- The external validation capability: does value `v` satisfy descriptor
`t`?  Sentinels (symbols / tagged wrappers) never satisfy the concrete
descriptors, only `tany`. -/
def validate : Ty → GVal → Bool
  | .tnum, .num _ => true
  | .tstr, .str _ => true
  | .tobj, .obj _ _ => true
  | .tany, _ => true
  | _, _ => false

/-- An object schema: named fields with type descriptors. -/
abbrev Schema := List (String × Ty)

/-- A props record. -/
abbrev Props := List (String × GVal)

/-- Field lookup in a schema (first binding wins). -/
def lookupTy : Schema → String → Option Ty
  | [], _ => none
  | kv :: rest, k => if kv.1 = k then some kv.2 else lookupTy rest k

/-- Property lookup in a props record (first binding wins). -/
def lookupProp : Props → String → Option GVal
  | [], _ => none
  | kv :: rest, k => if kv.1 = k then some kv.2 else lookupProp rest k

/-- Parse of a single value against a type descriptor (zod `schema.parse` for
an output schema): returns the value on success, throws on mismatch. -/
def parseTy (t : Ty) (v : GVal) : Except String GVal :=
  if validate t v then .ok v else .error "output validation failed"

/-- Parse of a props record against an object schema (zod `z.object(...).parse`):
every schema key must be present and valid; unknown keys are stripped; the
result binds exactly the schema's keys. -/
def parseObj : Schema → Props → Except String Props
  | [], _ => .ok []
  | kv :: rest, p =>
    match lookupProp p kv.1 with
    | none => .error "missing required prop"
    | some v =>
      if validate kv.2 v then
        match parseObj rest p with
        | .ok q => .ok ((kv.1, v) :: q)
        | .error e => .error e
      else .error "invalid prop"

/-- Eventual fate of a pending (promise) computation. -/
inductive Settle (α : Type) where
  | resolved (v : α)
  | rejected (e : String)
deriving DecidableEq, Repr

/-- A `MaybePromise` result: immediate, or pending with an eventual fate. -/
inductive MP (α : Type) where
  | now (v : α)
  | pending (s : Settle α)
deriving DecidableEq, Repr

/-- A graft component (types.ts `GraftComponent`): input schema, output
schema, status keys, and a run function.  `run` may throw synchronously
(`.error`) or return an immediate or pending result. -/
structure Component where
  schema : Schema
  outputSchema : Ty
  statusKeys : List String
  run : Props → Except String (MP GVal)

/-- Transcription of `splitProps`, first half: build `from`'s input record by
copying each of `from`'s schema keys out of the parsed combined props
(`fromInput[fromKey] = parsed[fromKey]`, `undefined` when absent). -/
def fromInputOf (fromSchema : Schema) (parsed : Props) : Props :=
  fromSchema.map (fun kv => (kv.1, (lookupProp parsed kv.1).getD .undef))

/-- Transcription of `splitProps`, second half (`buildIntoInput`): `into`'s
input is `key ↦ fromOutput` plus every other `into` schema key present in the
parsed props. -/
def buildIntoInput (intoSchema : Schema) (key : String) (parsed : Props)
    (fromOutput : GVal) : Props :=
  (key, fromOutput) :: intoSchema.filterMap (fun kv =>
    if kv.1 = key then none
    else match lookupProp parsed kv.1 with
      | some v => some (kv.1, v)
      | none => none)

/-- The `into` shape with the wired key deleted (`{...into.schema.shape}`
followed by `delete intoShape[key]`). -/
def intoRemainder (intoSchema : Schema) (key : String) : Schema :=
  intoSchema.filter (fun kv => kv.1 ≠ key)

/-- The construction-time overlap check of `composeSingle`: some key shared
by `into`'s remainder and `from`'s schema has incompatible type descriptors. -/
def overlapIncompatible (intoRem fromSchema : Schema) : Bool :=
  fromSchema.any (fun kv =>
    match lookupTy intoRem kv.1 with
    | some t => t ≠ kv.2
    | none => false)

/-- JavaScript spread merge `{...intoShape, ...from.schema.shape}`: the
remainder's keys in order (values overridden by `from` where shared), then
`from`'s own keys. -/
def mergeShape (intoRem fromSchema : Schema) : Schema :=
  intoRem.map (fun kv => (kv.1, (lookupTy fromSchema kv.1).getD kv.2)) ++
    fromSchema.filter (fun kv => (lookupTy intoRem kv.1).isNone)

/-- The composed component's input schema. -/
def composedSchema (into frm : Component) (key : String) : Schema :=
  mergeShape (intoRemainder into.schema key) frm.schema

/-- Promise `.then` against a continuation that may throw, return an
immediate value, or return a further promise (which flattens). -/
def mpThen (s : Settle GVal) (f : GVal → Except String (MP GVal)) :
    Settle GVal :=
  match s with
  | .rejected e => .rejected e
  | .resolved v =>
    match f v with
    | .error e => .rejected e
    | .ok (.now w) => .resolved w
    | .ok (.pending t) => t

/-- The `runInto` closure of `composeSingle.run`: validate `from`'s resolved
output at the boundary, then invoke `into.run` on the reassembled input. -/
def runIntoWith (into : Component) (fromOut : Ty) (key : String)
    (parsed : Props) (v : GVal) : Except String (MP GVal) :=
  match parseTy fromOut v with
  | .error e => .error e
  | .ok w => into.run (buildIntoInput into.schema key parsed w)

/-- Transcription of `composeSingle`'s `run`: parse the combined props, run
`from` on its subset, then (immediately, or after the promise resolves)
validate and run `into`. -/
def composeRun (into frm : Component) (key : String) (props : Props) :
    Except String (MP GVal) :=
  match parseObj (composedSchema into frm key) props with
  | .error e => .error e
  | .ok parsed =>
    match frm.run (fromInputOf frm.schema parsed) with
    | .error e => .error e
    | .ok (.now v) => runIntoWith into frm.outputSchema key parsed v
    | .ok (.pending s) =>
      .ok (.pending (mpThen s (runIntoWith into frm.outputSchema key parsed)))

/-- The component built by `composeSingle` once the overlap check passed. -/
def composeSingleC (into frm : Component) (key : String) : Component :=
  { schema := composedSchema into frm key
    outputSchema := into.outputSchema
    statusKeys := []
    run := composeRun into frm key }

/-- Message of the construction-time configuration error. -/
def composeErrMsg : String :=
  "compose: overlapping input key has incompatible types"

/-- Transcription of `composeSingle`: the overlap check throws at build time;
otherwise the composed component is returned. -/
def composeSingle (into frm : Component) (key : String) :
    Except String Component :=
  if overlapIncompatible (intoRemainder into.schema key) frm.schema then
    .error composeErrMsg
  else .ok (composeSingleC into frm key)

/-- Two props records are equivalent when every lookup agrees (the way a
JavaScript run function, which reads named properties, observes them). -/
def PropsEquiv (p q : Props) : Prop := ∀ k, lookupProp p k = lookupProp q k

/-- A component's run function observes its props only through property
lookups (true of every JavaScript run function in the library). -/
def RunRespects (c : Component) : Prop :=
  ∀ p q, PropsEquiv p q → c.run p = c.run q

/-- Spec-side reading of "B's subset of the props": the validated props
restricted to the fields named in B's schema. -/
def specSubset (fromSchema : Schema) (parsed : Props) : Props :=
  parsed.filter (fun kv => (lookupTy fromSchema kv.1).isSome)

/-- Spec-side reading of "the residual fields plus `key` bound to that
validated value": the validated props restricted to A's schema minus `key`,
extended with the wired binding. -/
def specResidualPlusKey (intoSchema : Schema) (key : String) (parsed : Props)
    (v : GVal) : Props :=
  parsed.filter (fun kv => decide (kv.1 ≠ key) && (lookupTy intoSchema kv.1).isSome)
    ++ [(key, v)]

/-- Spec-side invocation of A on a resolved B output: validate against B's
output schema, then run A on the residual fields plus the wired binding. -/
def specRunA (into : Component) (fromOut : Ty) (key : String) (parsed : Props)
    (v : GVal) : Except String (MP GVal) :=
  match parseTy fromOut v with
  | .error e => .error e
  | .ok w => into.run (specResidualPlusKey into.schema key parsed w)

/-- Modelled from the spec's words (the refinement side of the composed `run`
law): validate the props against the composed schema, run B on B's subset of
the props, then — immediately when B's result is immediate, or once the
pending result resolves — validate B's output and run A on the residual
fields plus `key` bound to the validated value, propagating A's
pending/immediate nature unchanged. -/
def specComposedRun (into frm : Component) (key : String) (props : Props) :
    Except String (MP GVal) :=
  match parseObj (composedSchema into frm key) props with
  | .error e => .error e
  | .ok parsed =>
    match frm.run (specSubset frm.schema parsed) with
    | .error e => .error e
    | .ok (.now v) => specRunA into frm.outputSchema key parsed v
    | .ok (.pending s) =>
      .ok (.pending (mpThen s (specRunA into frm.outputSchema key parsed)))

/-- Mutable state of one active `composeSingle` subscription: the `disposed`
flag, the `lastFromValue` dedup register (`none` is the `UNSET` symbol), and
whether an inner `into`-side subscription is currently held. -/
structure ComposeSubSt where
  disposed : Bool
  last : Option GVal
  hasInto : Bool
deriving DecidableEq, Repr

/-- Observable reaction of the `from`-callback of a `composeSingle`
subscription to one delivered value. -/
inductive ComposeAction where
  | skip
  | emitSentinel (s : GVal)
  | subInto (input : Props)
  | throwValidation (e : String)
deriving DecidableEq, Repr

/-- The dedup test `fromValue === lastFromValue` (`UNSET` equals nothing). -/
def dedupHit (last : Option GVal) (v : GVal) : Bool :=
  match last with
  | some l => jsEq v l
  | none => false

/-- Transcription of the `from.subscribe` callback body of
`composeSingle.subscribe`: ignore when disposed; reference-equality dedup;
tear down the previous `into` subscription; sentinel handling guarded by
`into.statusKeys`; boundary validation; re-subscription of `into`. -/
def composeStep (into : Component) (fromOut : Ty) (key : String)
    (parsed : Props) (st : ComposeSubSt) (v : GVal) :
    ComposeSubSt × ComposeAction :=
  if st.disposed then (st, .skip)
  else if dedupHit st.last v then (st, .skip)
  else if isSentinel v then
    if into.statusKeys.contains key then
      ({ disposed := st.disposed, last := some v, hasInto := true },
        .subInto (buildIntoInput into.schema key parsed v))
    else
      ({ disposed := st.disposed, last := some v, hasInto := false },
        .emitSentinel v)
  else
    match parseTy fromOut v with
    | .error e =>
      ({ disposed := st.disposed, last := some v, hasInto := false },
        .throwValidation e)
    | .ok w =>
      ({ disposed := st.disposed, last := some v, hasInto := true },
        .subInto (buildIntoInput into.schema key parsed w))

/-- Fold of `composeStep` over a whole sequence of `from` deliveries,
collecting the reaction to each delivery. -/
def composeProcess (into : Component) (fromOut : Ty) (key : String)
    (parsed : Props) : ComposeSubSt → List GVal → ComposeSubSt × List ComposeAction
  | st, [] => (st, [])
  | st, v :: vs =>
    let sa := composeStep into fromOut key parsed st v
    let rest := composeProcess into fromOut key parsed sa.1 vs
    (rest.1, sa.2 :: rest.2)

/-- Fresh subscription state (not disposed, dedup register `UNSET`). -/
def subStInit : ComposeSubSt :=
  { disposed := false, last := none, hasInto := false }

/-- Direct outer-callback deliveries produced by a reaction (an `emitSentinel`
reaction calls `cb` once; `skip`, a thrown validation error, and the mere act
of subscribing `into` deliver nothing themselves). -/
def actionCbOut : ComposeAction → List GVal
  | .emitSentinel s => [s]
  | _ => []

/-- Whether a reaction invokes `into`'s run/subscribe. -/
def invokesInto : ComposeAction → Bool
  | .subInto _ => true
  | _ => false

/-- Transcription of the short-circuit scan of `component.subscribe`: the
first prop whose key is not a status key and whose value is a sentinel. -/
def shortCircuitValue (statusKeys : List String) (props : Props) :
    Option GVal :=
  match props.find? (fun kv => !(statusKeys.contains kv.1) && isSentinel kv.2) with
  | some kv => some kv.2
  | none => none

/-- The value a settled promise hands the subscribe callback: the resolved
value, or a fresh `graftError` wrapper around the rejection (the wrapper's
allocation identity is abstracted to 0). -/
def settleVal : Settle GVal → GVal
  | .resolved v => v
  | .rejected e => .errv 0 e

/-- Transcription of `component.subscribe` as a callback trace.  The props
are scanned for a short-circuiting sentinel; otherwise `run` is invoked: a
synchronous throw escapes (`.error`); a pending result delivers `loading`
synchronously and then, unless the cleanup ran before settlement
(`cancelBeforeSettle`), the settled value; an immediate result is delivered
directly. -/
def componentSubscribeTrace (statusKeys : List String)
    (runf : Props → Except String (MP GVal)) (props : Props)
    (cancelBeforeSettle : Bool) : Except String (List GVal) :=
  match shortCircuitValue statusKeys props with
  | some s => .ok [s]
  | none =>
    match runf props with
    | .error e => .error e
    | .ok (.now v) => .ok [v]
    | .ok (.pending s) =>
      .ok (.loading :: (if cancelBeforeSettle then [] else [settleVal s]))

/-- JavaScript spread `{...props, [key]: v}` observed through lookups. -/
def setProp (p : Props) (k : String) (v : GVal) : Props :=
  (k, v) :: p.filter (fun kv => kv.1 ≠ k)

/-- Accumulator update of the future edge's `run`: the resolved value becomes
the new accumulator; a synchronous throw or a rejection leaves it unchanged. -/
def nextAccRun (acc : GVal) (r : Except String (MP GVal)) : GVal :=
  match r with
  | .ok (.now v) => v
  | .ok (.pending (.resolved v)) => v
  | _ => acc

/-- One invocation of `composeFutureImpl`'s `run`: `from.run` is invoked on
the props extended with `key ↦ acc`; the result is returned verbatim as D's
result and the accumulator advances per `nextAccRun`.  Invocations are
modelled as fully settled before the next one begins. -/
def futureStep (frm : Component) (key : String) (acc : GVal) (props : Props) :
    Except String (MP GVal) × GVal :=
  let r := frm.run (setProp props key acc)
  (r, nextAccRun acc r)

/-- A sequence of `run` invocations of a future-edge component, recording for
each invocation the accumulator it observed and the result it returned. -/
def futureRunTrace (frm : Component) (key : String) :
    GVal → List Props → List (GVal × Except String (MP GVal))
  | _, [] => []
  | acc, p :: ps =>
    (acc, (futureStep frm key acc p).1)
      :: futureRunTrace frm key (futureStep frm key acc p).2 ps

/-- Transcription of the delivery wrapper of `composeFutureImpl.subscribe`:
a non-sentinel value updates the accumulator; every value is forwarded to the
outer callback unchanged. -/
def futureDeliverStep (acc v : GVal) : GVal × GVal :=
  (v, if isSentinel v then acc else v)

/-- Fold of `futureDeliverStep` over the deliveries of one subscription:
the forwarded callback outputs and the final accumulator. -/
def futureSubProcess : GVal → List GVal → List GVal × GVal
  | acc, [] => ([], acc)
  | acc, v :: vs =>
    ((futureDeliverStep acc v).1
        :: (futureSubProcess (futureDeliverStep acc v).2 vs).1,
      (futureSubProcess (futureDeliverStep acc v).2 vs).2)

/-- The props with which `composeFutureImpl.subscribe` subscribes to `from`:
built once, at subscribe time, from the accumulator as it then stands. -/
def futureSubscribeProps (props : Props) (key : String) (acc : GVal) : Props :=
  setProp props key acc

/-- The input schema of a future-edge component: `from`'s shape minus the
feedback key. -/
def futureSchema (frm : Component) (key : String) : Schema :=
  intoRemainder frm.schema key

/-- Events touching the single accumulator cell of one future-edge component:
a (fully settling) `run` call, or a delivery arriving on any one of its
active subscriptions. -/
inductive FutOp where
  | runCall (props : Props)
  | deliverOn (v : GVal)

/-- Effect of one event on the shared accumulator cell. -/
def futWorldStep (frm : Component) (key : String) (acc : GVal) : FutOp → GVal
  | .runCall p => (futureStep frm key acc p).2
  | .deliverOn v => (futureDeliverStep acc v).2

/-- The accumulator after a sequence of events, regardless of which run call
or subscription each event originated from: there is one cell. -/
def futWorld (frm : Component) (key : String) (acc : GVal)
    (ops : List FutOp) : GVal :=
  ops.foldl (futWorldStep frm key) acc

/-- Cleanup-relevant state of one subscription, by constructor: the no-op
cleanup of a short-circuited `component.subscribe`; the `cancelled` flag of
its async path; membership of the callback in a state cell's listener set;
and a `composeSingle` subscription owning a `from` child and possibly a
current `into` child. -/
inductive SubTree where
  | leafNoop
  | leafAsync (cancelled : Bool)
  | cell (registered : Bool)
  | compN (disposed : Bool) (fromSub : SubTree)
  | compS (disposed : Bool) (fromSub : SubTree) (intoSub : SubTree)
deriving DecidableEq, Repr

/-- Effect of invoking a subscription's cleanup: `cancelled := true`;
`listeners.delete(cb)`; for compose, `disposed := true`, then the `from`
child's cleanup, then the current `into` child's cleanup if any. -/
def cleanupSub : SubTree → SubTree
  | .leafNoop => .leafNoop
  | .leafAsync _ => .leafAsync true
  | .cell _ => .cell false
  | .compN _ f => .compN true (cleanupSub f)
  | .compS _ f i => .compS true (cleanupSub f) (cleanupSub i)

/-- Whether any further callback delivery can reach this subscription's
callback. -/
def canDeliver : SubTree → Bool
  | .leafNoop => false
  | .leafAsync c => !c
  | .cell r => r
  | .compN d f => !d && canDeliver f
  | .compS d f i => !d && (canDeliver f || canDeliver i)

/-- Whether this subscription and every child subscription it owns have been
disposed. -/
def allDisposed : SubTree → Bool
  | .leafNoop => true
  | .leafAsync c => c
  | .cell r => !r
  | .compN d f => d && allDisposed f
  | .compS d f i => d && allDisposed f && allDisposed i

/-- An instance built by one template invocation: the identities of the state
cells it allocated (each `state()` call inside the template creates a fresh
`current`/`listeners` closure, modelled as a fresh cell identity). -/
structure Inst where
  cells : List Nat
deriving DecidableEq, Repr

/-- A template is a zero-argument factory; generativity of the closures it
allocates is modelled by threading a fresh-identity counter. -/
abbrev Template := Nat → Inst × Nat

/-- A template is allocation-fresh when every invocation only uses cell
identities drawn from the counter range it consumed. -/
def TemplateFresh (t : Template) : Prop :=
  ∀ c, c ≤ (t c).2 ∧ ∀ id ∈ (t c).1.cells, c ≤ id ∧ id < (t c).2

/-- The heap of state-cell current values. -/
abbrev Heap := Nat → GVal

/-- Effect of a state cell's setter on the heap. -/
def writeCell (h : Heap) (id : Nat) (v : GVal) : Heap :=
  fun j => if j = id then v else h j

/-- The probe instance built eagerly by `instantiate` at wrap time. -/
def instantiateProbe (t : Template) (c0 : Nat) : Inst × Nat := t c0

/-- The fresh instance built by one `subscribe` (or `run`) call on an
`instantiate`-wrapped component, at the counter it is invoked with. -/
def instantiateInstance (t : Template) (c : Nat) : Inst × Nat := t c

/-- Run function of the `Add` example component: `({a, b}) => a + b`. -/
def addRun : Props → Except String (MP GVal) := fun p =>
  match lookupProp p "a", lookupProp p "b" with
  | some (.num a), some (.num b) => .ok (.now (.num (a + b)))
  | _, _ => .error "Add: bad input"

/-- The `Add` example component. -/
def addC : Component :=
  { schema := [("a", .tnum), ("b", .tnum)]
    outputSchema := .tnum
    statusKeys := []
    run := addRun }

/-- Run function of the `Display` example component. -/
def displayRun : Props → Except String (MP GVal) := fun p =>
  match lookupProp p "sum", lookupProp p "label" with
  | some (.num _), some (.str l) => .ok (.now (.str l))
  | _, _ => .error "Display: bad input"

/-- The `Display` example component: `{sum, label}`, no status keys. -/
def displayC : Component :=
  { schema := [("sum", .tnum), ("label", .tstr)]
    outputSchema := .tstr
    statusKeys := []
    run := displayRun }

/-- Run function of the `Fetch` example: pending, resolving with the length
of the `id` string. -/
def fetchRun : Props → Except String (MP GVal) := fun p =>
  match lookupProp p "id" with
  | some (.str s) => .ok (.pending (.resolved (.num (Int.ofNat s.length))))
  | _ => .error "Fetch: bad input"

/-- A run function that throws synchronously. -/
def throwRun : Props → Except String (MP GVal) := fun _ => .error "boom"

/-- A run function that returns a rejecting promise. -/
def rejectRun : Props → Except String (MP GVal) := fun _ =>
  .ok (.pending (.rejected "boom"))

/-- Run function of the `Counter` example for the feedback edge:
`({x, prev}) => x + prev`. -/
def counterRun : Props → Except String (MP GVal) := fun p =>
  match lookupProp p "x", lookupProp p "prev" with
  | some (.num x), some (.num prev) => .ok (.now (.num (x + prev)))
  | _, _ => .error "Counter: bad input"

/-- The `Counter` example component whose own output feeds back into `prev`. -/
def counterC : Component :=
  { schema := [("x", .tnum), ("prev", .tnum)]
    outputSchema := .tnum
    statusKeys := []
    run := counterRun }

/-- A template allocating exactly one fresh state cell per invocation. -/
def oneCellTemplate : Template := fun c => ({ cells := [c] }, c + 1)

/-- The Card example for shared-name composition: inputs `x` and `k`. -/
def cardC : Component :=
  { schema := [("x", Ty.tnum), ("k", Ty.tstr)]
    outputSchema := .tstr
    statusKeys := []
    run := throwRun }

/-- A provider sharing the remaining input name `x` with Card, with the same
descriptor. -/
def provXC : Component :=
  { schema := [("x", Ty.tnum)]
    outputSchema := .tstr
    statusKeys := []
    run := throwRun }

/-- Number of times a name appears among a schema's keys. -/
def keyCount : Schema → String → Nat
  | [], _ => 0
  | kv :: rest, k => (if kv.1 = k then 1 else 0) + keyCount rest k

/-! Lemmas: lookup characterizations of the prop-splitting helpers. -/

/-- Strict equality is reflexive. -/
theorem jsEq_refl (v : GVal) : jsEq v v = true := by
  cases v <;> simp [jsEq]

/-- Looking up the overridden key of a spread. -/
theorem lookupProp_setProp_self (p : Props) (k : String) (v : GVal) :
    lookupProp (setProp p k v) k = some v := by
  simp [setProp, lookupProp]

/-- Lookup distributes over append, first list first. -/
theorem lookupTy_append (a b : Schema) (k : String) :
    lookupTy (a ++ b) k =
      match lookupTy a k with
      | some t => some t
      | none => lookupTy b k := by
  induction a with
  | nil => simp [lookupTy]
  | cons kv rest ih =>
    by_cases hk : kv.1 = k
    · simp [lookupTy, hk]
    · simp [lookupTy, hk, ih]

/-- Lookup distributes over append, first list first. -/
theorem lookupProp_append (a b : Props) (k : String) :
    lookupProp (a ++ b) k =
      match lookupProp a k with
      | some v => some v
      | none => lookupProp b k := by
  induction a with
  | nil => simp [lookupProp]
  | cons kv rest ih =>
    by_cases hk : kv.1 = k
    · simp [lookupProp, hk]
    · simp [lookupProp, hk, ih]

/-- Lookup in the key-preserving override map of `mergeShape`. -/
theorem lookupTy_map_override (ir fs : Schema) (k : String) :
    lookupTy (ir.map (fun kv => (kv.1, (lookupTy fs kv.1).getD kv.2))) k
      = (lookupTy ir k).map (fun ty => (lookupTy fs k).getD ty) := by
  induction ir with
  | nil => simp [lookupTy]
  | cons kv rest ih =>
    by_cases hk : kv.1 = k
    · subst hk; simp [lookupTy]
    · simp [lookupTy, hk, ih]

/-- Lookup in the `from`-only filtered half of `mergeShape`, at a key absent
from the remainder. -/
theorem lookupTy_filter_isNone (ir fs : Schema) (k : String)
    (h : lookupTy ir k = none) :
    lookupTy (fs.filter (fun kv => (lookupTy ir kv.1).isNone)) k
      = lookupTy fs k := by
  induction fs with
  | nil => simp [lookupTy]
  | cons kv rest ih =>
    by_cases hk : kv.1 = k
    · subst hk; simp [List.filter, h, lookupTy]
    · by_cases hp : (lookupTy ir kv.1).isNone
      · simp [List.filter, hp, lookupTy, hk, ih]
      · simp [List.filter, hp, lookupTy, hk, ih]

/-- Lookup characterization of the spread merge `mergeShape`. -/
theorem lookupTy_mergeShape (ir fs : Schema) (k : String) :
    lookupTy (mergeShape ir fs) k =
      match lookupTy ir k with
      | some ty => some ((lookupTy fs k).getD ty)
      | none => lookupTy fs k := by
  unfold mergeShape
  rw [lookupTy_append, lookupTy_map_override]
  cases h : lookupTy ir k with
  | some ty => simp
  | none => simp [lookupTy_filter_isNone ir fs k h]

/-- The merge favors `from`'s descriptor and falls back to the remainder:
field-union semantics. -/
theorem lookupTy_mergeShape_union (ir fs : Schema) (k : String) :
    lookupTy (mergeShape ir fs) k =
      match lookupTy fs k with
      | some u => some u
      | none => lookupTy ir k := by
  rw [lookupTy_mergeShape]
  cases hi : lookupTy ir k <;> cases hf : lookupTy fs k <;> simp

/-- A key is bound in a schema exactly when lookup succeeds. -/
theorem lookupTy_isSome_iff_mem (s : Schema) (k : String) :
    (lookupTy s k).isSome = true ↔ k ∈ s.map Prod.fst := by
  induction s with
  | nil => simp [lookupTy]
  | cons kv rest ih =>
    by_cases hk : kv.1 = k
    · simp [lookupTy, hk]
    · simp [lookupTy, hk, ih, Ne.symm hk]

/-- Lookup in a successfully parsed record: schema keys read through to the
raw props, other keys are stripped. -/
theorem parseObj_ok_lookup (s : Schema) (p q : Props)
    (h : parseObj s p = .ok q) (k : String) :
    lookupProp q k =
      if (lookupTy s k).isSome = true then lookupProp p k else none := by
  induction s generalizing q with
  | nil =>
    simp [parseObj] at h
    subst h
    simp [lookupProp, lookupTy]
  | cons kv rest ih =>
    simp only [parseObj] at h
    cases hp : lookupProp p kv.1 with
    | none => rw [hp] at h; exact absurd h (by simp)
    | some v =>
      simp only [hp] at h
      by_cases hv : validate kv.2 v = true
      · rw [if_pos hv] at h
        cases hq : parseObj rest p with
        | error e => rw [hq] at h; exact absurd h (by simp)
        | ok q2 =>
          rw [hq] at h
          cases h
          by_cases hk : kv.1 = k
          · subst hk; simp [lookupProp, lookupTy, hp]
          · simp [lookupProp, lookupTy, hk, ih q2 hq]
      · rw [if_neg hv] at h; exact absurd h (by simp)

/-- Lookup in `from`'s reconstructed input record. -/
theorem lookupProp_fromInputOf (fs : Schema) (parsed : Props) (k : String) :
    lookupProp (fromInputOf fs parsed) k
      = (lookupTy fs k).map (fun _ => (lookupProp parsed k).getD .undef) := by
  induction fs with
  | nil => simp [fromInputOf, lookupProp, lookupTy]
  | cons kv rest ih =>
    by_cases hk : kv.1 = k
    · subst hk; simp [fromInputOf, lookupProp, lookupTy]
    · simpa [fromInputOf, lookupProp, lookupTy, hk] using ih

/-- Lookup in a record filtered by a predicate on keys alone. -/
theorem lookupProp_filter_keyPred (p : Props) (pb : String → Bool)
    (k : String) :
    lookupProp (p.filter (fun kv => pb kv.1)) k
      = if pb k = true then lookupProp p k else none := by
  induction p with
  | nil => simp [lookupProp]
  | cons kv rest ih =>
    by_cases hk : kv.1 = k
    · subst hk
      by_cases hb : pb kv.1 = true
      · simp [List.filter, hb, lookupProp]
      · simp [List.filter, hb, lookupProp, ih]
    · by_cases hb : pb kv.1 = true
      · simp [List.filter, hb, lookupProp, hk, ih]
      · simp [List.filter, hb, lookupProp, hk, ih]

/-- Lookup in `into`'s reassembled input record. -/
theorem lookupProp_buildIntoInput (is : Schema) (key : String)
    (parsed : Props) (w : GVal) (k : String) :
    lookupProp (buildIntoInput is key parsed w) k
      = if k = key then some w
        else if (lookupTy is k).isSome = true then lookupProp parsed k
        else none := by
  by_cases hk : k = key
  · subst hk; simp [buildIntoInput, lookupProp]
  · have hk2 : ¬ key = k := fun h => hk h.symm
    simp only [buildIntoInput, lookupProp, if_neg hk2, if_neg hk]
    induction is with
    | nil => simp [lookupProp, lookupTy]
    | cons kv rest ih =>
      by_cases hkv : kv.1 = key
      · have hne : ¬ kv.1 = k := by rw [hkv]; exact hk2
        simp only [List.filterMap_cons, if_pos hkv, lookupTy, if_neg hne]
        exact ih
      · by_cases hkk : kv.1 = k
        · subst hkk
          cases hp : lookupProp parsed kv.1 with
          | some v =>
            simp [List.filterMap_cons, hkv, hp, lookupProp, lookupTy]
          | none =>
            simp only [List.filterMap_cons, if_neg hkv, hp]
            rw [ih]
            simp [lookupTy, hp]
        · cases hp : lookupProp parsed kv.1 with
          | some v =>
            simp only [List.filterMap_cons, if_neg hkv, hp, lookupProp,
              if_neg hkk]
            rw [ih]
            simp [lookupTy, hkk]
          | none =>
            simp only [List.filterMap_cons, if_neg hkv, hp]
            rw [ih]
            simp [lookupTy, hkk]

/-- Lookup in the spec-side residual-plus-key record: it agrees with the
source's `buildIntoInput` on every key. -/
theorem lookupProp_specResidualPlusKey (is : Schema) (key : String)
    (parsed : Props) (w : GVal) (k : String) :
    lookupProp (specResidualPlusKey is key parsed w) k
      = if k = key then some w
        else if (lookupTy is k).isSome = true then lookupProp parsed k
        else none := by
  unfold specResidualPlusKey
  rw [lookupProp_append,
    lookupProp_filter_keyPred parsed
      (fun s => decide (s ≠ key) && (lookupTy is s).isSome) k]
  by_cases hk : k = key
  · subst hk; simp [lookupProp]
  · have hk2 : ¬ key = k := fun h => hk h.symm
    by_cases hs : (lookupTy is k).isSome = true
    · simp only [hk, hs, decide_not]
      cases hp : lookupProp parsed k with
      | some v => simp [hk]
      | none => simp [lookupProp, hk, hk2]
    · simp [hk, hk2, hs, lookupProp]

/-- The source's reassembled `into` input is observationally the spec's
residual-fields-plus-key record. -/
theorem buildInto_equiv_spec (is : Schema) (key : String) (parsed : Props)
    (w : GVal) :
    PropsEquiv (buildIntoInput is key parsed w)
      (specResidualPlusKey is key parsed w) := by
  intro k
  rw [lookupProp_buildIntoInput, lookupProp_specResidualPlusKey]

/-- Parse success means every schema key was present in the raw props. -/
theorem parseObj_ok_present (s : Schema) (p q : Props)
    (h : parseObj s p = .ok q) (k : String)
    (hk : (lookupTy s k).isSome = true) : (lookupProp p k).isSome = true := by
  induction s generalizing q with
  | nil => simp [lookupTy] at hk
  | cons kv rest ih =>
    simp only [parseObj] at h
    cases hp : lookupProp p kv.1 with
    | none => rw [hp] at h; exact absurd h (by simp)
    | some v =>
      simp only [hp] at h
      by_cases hv : validate kv.2 v = true
      · rw [if_pos hv] at h
        cases hq : parseObj rest p with
        | error e => rw [hq] at h; exact absurd h (by simp)
        | ok q2 =>
          by_cases hkk : kv.1 = k
          · subst hkk; simp [hp]
          · exact ih q2 hq (by simpa [lookupTy, hkk] using hk)
      · rw [if_neg hv] at h; exact absurd h (by simp)

/-- Lookup in the spec-side subset of the props destined for `from`. -/
theorem lookupProp_specSubset (fs : Schema) (parsed : Props) (k : String) :
    lookupProp (specSubset fs parsed) k
      = if (lookupTy fs k).isSome = true then lookupProp parsed k else none :=
  lookupProp_filter_keyPred parsed (fun s => (lookupTy fs s).isSome) k

/-- Keys of `from` survive into the merged schema. -/
theorem mergeShape_from_isSome (ir fs : Schema) (k : String)
    (h : (lookupTy fs k).isSome = true) :
    (lookupTy (mergeShape ir fs) k).isSome = true := by
  rw [lookupTy_mergeShape_union]
  cases hf : lookupTy fs k with
  | none => rw [hf] at h; simp at h
  | some u => simp

/-- Keys of the remainder survive into the merged schema. -/
theorem mergeShape_into_isSome (ir fs : Schema) (k : String)
    (h : (lookupTy ir k).isSome = true) :
    (lookupTy (mergeShape ir fs) k).isSome = true := by
  rw [lookupTy_mergeShape]
  cases hi : lookupTy ir k with
  | none => rw [hi] at h; simp at h
  | some t => simp

/-- On a successfully parsed record, the source's reconstructed `from` input
is observationally the spec's "B's subset of the props". -/
theorem fromInput_equiv_spec (into frm : Component) (key : String)
    (props parsed : Props)
    (h : parseObj (composedSchema into frm key) props = .ok parsed) :
    PropsEquiv (fromInputOf frm.schema parsed)
      (specSubset frm.schema parsed) := by
  intro k
  rw [lookupProp_fromInputOf, lookupProp_specSubset]
  cases hf : lookupTy frm.schema k with
  | none => simp
  | some ty =>
    have hmerge : (lookupTy (composedSchema into frm key) k).isSome = true :=
      mergeShape_from_isSome _ _ _ (by simp [hf])
    have hpres : (lookupProp props k).isSome = true :=
      parseObj_ok_present _ _ _ h k hmerge
    have hlk : lookupProp parsed k = lookupProp props k := by
      rw [parseObj_ok_lookup _ _ _ h k, if_pos hmerge]
    cases hv : lookupProp props k with
    | none => rw [hv] at hpres; simp at hpres
    | some v => simp [hlk, hv]

/-- Congruence of promise chaining in the continuation. -/
theorem mpThen_congr (s : Settle GVal) (f g : GVal → Except String (MP GVal))
    (h : ∀ v, f v = g v) : mpThen s f = mpThen s g := by
  cases s with
  | rejected e => rfl
  | resolved v => simp [mpThen, h v]

/-- The source's boundary-validate-then-run-into continuation agrees with the
spec's, for any component whose run observes props by name. -/
theorem runIntoWith_eq_specRunA (into : Component) (fromOut : Ty)
    (key : String) (parsed : Props) (hI : RunRespects into) (v : GVal) :
    runIntoWith into fromOut key parsed v
      = specRunA into fromOut key parsed v := by
  unfold runIntoWith specRunA
  cases parseTy fromOut v with
  | error e => rfl
  | ok w => exact hI _ _ (buildInto_equiv_spec into.schema key parsed w)

/-! Claim theorems. -/

/-- C1: for components A (`into`) and B (`from`) with compatible types and a
key naming an input of A, `compose(A, B, key)` is built successfully; its
input schema is A's schema minus `key` merged (field-union) with B's schema;
its output schema is A's; and its `run` coincides with the spec's pipeline:
validate the props, run B on B's subset of the props, validate B's (possibly
awaited) output against B's output schema, then run A on the residual fields
plus `key` bound to the validated value, propagating A's pending/immediate
nature unchanged. -/
theorem compose_run_matches_spec (into frm : Component) (key : String)
    (hcompat : overlapIncompatible (intoRemainder into.schema key) frm.schema
      = false)
    (hI : RunRespects into) (hF : RunRespects frm) :
    composeSingle into frm key = .ok (composeSingleC into frm key)
    ∧ (∀ k, lookupTy (composeSingleC into frm key).schema k =
        match lookupTy frm.schema k with
        | some u => some u
        | none => lookupTy (intoRemainder into.schema key) k)
    ∧ (composeSingleC into frm key).outputSchema = into.outputSchema
    ∧ ∀ props, (composeSingleC into frm key).run props
        = specComposedRun into frm key props := by
  refine ⟨?_, ?_, rfl, ?_⟩
  · simp [composeSingle, hcompat]
  · intro k
    exact lookupTy_mergeShape_union _ _ k
  · intro props
    show composeRun into frm key props = specComposedRun into frm key props
    unfold composeRun specComposedRun
    cases hp : parseObj (composedSchema into frm key) props with
    | error e => rfl
    | ok parsed =>
      dsimp only
      rw [hF _ _ (fromInput_equiv_spec into frm key props parsed hp)]
      cases frm.run (specSubset frm.schema parsed) with
      | error e => rfl
      | ok mp =>
        cases mp with
        | now v =>
          dsimp only
          exact runIntoWith_eq_specRunA into frm.outputSchema key parsed hI v
        | pending s =>
          dsimp only
          rw [mpThen_congr s _ _
            (runIntoWith_eq_specRunA into frm.outputSchema key parsed hI)]

/-- The Add example observes its props only by name. -/
theorem addC_respects : RunRespects addC := by
  intro p q h
  show addRun p = addRun q
  simp only [addRun, h "a", h "b"]

/-- The Display example observes its props only by name. -/
theorem displayC_respects : RunRespects displayC := by
  intro p q h
  show displayRun p = displayRun q
  simp only [displayRun, h "sum", h "label"]

/-- Witness for C1 at the spec's sync-chain scenario: Add composed into
Display at `sum`. -/
theorem compose_run_matches_spec_w :
    overlapIncompatible (intoRemainder displayC.schema "sum") addC.schema
      = false
    ∧ (composeSingle displayC addC "sum"
        = .ok (composeSingleC displayC addC "sum")
      ∧ (∀ k, lookupTy (composeSingleC displayC addC "sum").schema k =
          match lookupTy addC.schema k with
          | some u => some u
          | none => lookupTy (intoRemainder displayC.schema "sum") k)
      ∧ (composeSingleC displayC addC "sum").outputSchema
          = displayC.outputSchema
      ∧ ∀ props, (composeSingleC displayC addC "sum").run props
          = specComposedRun displayC addC "sum" props) :=
  ⟨by decide, compose_run_matches_spec displayC addC "sum" (by decide)
    displayC_respects addC_respects⟩

/-- A disposed subscription ignores every delivery. -/
theorem composeStep_disposed (into : Component) (fromOut : Ty) (key : String)
    (parsed : Props) (st : ComposeSubSt) (v : GVal)
    (h : st.disposed = true) :
    composeStep into fromOut key parsed st v = (st, .skip) := by
  simp [composeStep, h]

/-- A reference-identical repeat of the previous delivery is discarded. -/
theorem composeStep_dedup (into : Component) (fromOut : Ty) (key : String)
    (parsed : Props) (st : ComposeSubSt) (v : GVal)
    (h1 : st.disposed = false) (h2 : dedupHit st.last v = true) :
    composeStep into fromOut key parsed st v = (st, .skip) := by
  simp [composeStep, h1, h2]

/-- A processed delivery leaves the subscription active and records the
delivered value in the dedup register. -/
theorem composeStep_state (into : Component) (fromOut : Ty) (key : String)
    (parsed : Props) (st : ComposeSubSt) (v : GVal)
    (h1 : st.disposed = false) (h2 : dedupHit st.last v = false) :
    (composeStep into fromOut key parsed st v).1.disposed = false
    ∧ (composeStep into fromOut key parsed st v).1.last = some v := by
  simp only [composeStep, h1, h2]
  by_cases hs : isSentinel v = true
  · by_cases hc : into.statusKeys.contains key = true
    · have hm : key ∈ into.statusKeys := by simpa using hc
      simp [hs, hm]
    · have hm : key ∉ into.statusKeys := by simpa using hc
      simp [hs, hm]
  · cases hpt : parseTy fromOut v with
    | error e => simp [hs, hpt]
    | ok w => simp [hs, hpt]

/-- A delivery that is neither ignored for disposal nor deduplicated always
produces a visible reaction. -/
theorem composeStep_not_skip (into : Component) (fromOut : Ty) (key : String)
    (parsed : Props) (st : ComposeSubSt) (v : GVal)
    (h1 : st.disposed = false) (h2 : dedupHit st.last v = false) :
    (composeStep into fromOut key parsed st v).2 ≠ .skip := by
  simp only [composeStep, h1, h2]
  by_cases hs : isSentinel v = true
  · by_cases hc : into.statusKeys.contains key = true
    · have hm : key ∈ into.statusKeys := by simpa using hc
      simp [hs, hm]
    · have hm : key ∉ into.statusKeys := by simpa using hc
      simp [hs, hm]
  · cases hpt : parseTy fromOut v with
    | error e => simp [hs, hpt]
    | ok w => simp [hs, hpt]

/-- C2 (amended): on an active composed subscription, a sentinel delivery
that is not discarded by the reference-equality dedup short-circuits when
`key` is not among `into`'s status keys — `into` is not invoked and the
outer callback receives the sentinel verbatim; when `key` is a status key,
the sentinel is passed through as the value for `key` and `into` is
subscribed with it.  Moreover, with `key` not a status key, no sentinel
delivery ever invokes `into` (a deduplicated one is simply discarded). -/
theorem compose_sentinel_passthrough (into : Component) (fromOut : Ty)
    (key : String) (parsed : Props) (st : ComposeSubSt) (v : GVal)
    (hact : st.disposed = false) (hsent : isSentinel v = true)
    (hnew : dedupHit st.last v = false) :
    (into.statusKeys.contains key = false →
      composeStep into fromOut key parsed st v
        = ({ disposed := false, last := some v, hasInto := false },
            .emitSentinel v))
    ∧ (into.statusKeys.contains key = true →
      composeStep into fromOut key parsed st v
        = ({ disposed := false, last := some v, hasInto := true },
            .subInto (buildIntoInput into.schema key parsed v)))
    ∧ (∀ st2 w, isSentinel w = true → into.statusKeys.contains key = false →
      invokesInto (composeStep into fromOut key parsed st2 w).2 = false) := by
  refine ⟨fun hc => ?_, fun hc => ?_, fun st2 w hw hc => ?_⟩
  · have hm : key ∉ into.statusKeys := by simpa using hc
    simp [composeStep, hact, hnew, hsent, hm]
  · have hm : key ∈ into.statusKeys := by simpa using hc
    simp [composeStep, hact, hnew, hsent, hm]
  · have hm : key ∉ into.statusKeys := by simpa using hc
    by_cases h1 : st2.disposed = true
    · simp [composeStep_disposed into fromOut key parsed st2 w h1, invokesInto]
    · have h1f : st2.disposed = false := by simpa using h1
      by_cases h2 : dedupHit st2.last w = true
      · simp [composeStep_dedup into fromOut key parsed st2 w h1f h2,
          invokesInto]
      · have h2f : dedupHit st2.last w = false := by simpa using h2
        simp [composeStep, h1f, h2f, hw, hm, invokesInto]

/-- C2 counterexample: on a live composed subscription whose wired key is not
a status key, `from` delivers the Loading sentinel twice in a row; the
subscription is still active, yet the second sentinel delivery is discarded
by the reference-equality dedup, so the outer callback receives nothing for
it — not the sentinel verbatim as the claim demands for every delivery. -/
theorem compose_sentinel_passthrough_cex :
    isSentinel GVal.loading = true
    ∧ displayC.statusKeys.contains "sum" = false
    ∧ (composeStep displayC .tnum "sum" [("label", GVal.str "L")] subStInit
        GVal.loading).1.disposed = false
    ∧ (composeProcess displayC .tnum "sum" [("label", GVal.str "L")] subStInit
        [GVal.loading, GVal.loading]).2.map actionCbOut
      = [[GVal.loading], []] := by
  decide

/-- Witness for the amended C2 at a concrete subscription. -/
theorem compose_sentinel_passthrough_w :
    subStInit.disposed = false
    ∧ isSentinel GVal.loading = true
    ∧ dedupHit subStInit.last GVal.loading = false
    ∧ ((displayC.statusKeys.contains "sum" = false →
        composeStep displayC .tnum "sum" [("label", GVal.str "L")] subStInit
          GVal.loading
          = ({ disposed := false, last := some GVal.loading,
                hasInto := false },
              .emitSentinel GVal.loading))
      ∧ (displayC.statusKeys.contains "sum" = true →
        composeStep displayC .tnum "sum" [("label", GVal.str "L")] subStInit
          GVal.loading
          = ({ disposed := false, last := some GVal.loading,
                hasInto := true },
              .subInto (buildIntoInput displayC.schema "sum"
                [("label", GVal.str "L")] GVal.loading)))
      ∧ (∀ st2 w, isSentinel w = true →
          displayC.statusKeys.contains "sum" = false →
          invokesInto (composeStep displayC .tnum "sum"
            [("label", GVal.str "L")] st2 w).2 = false)) :=
  ⟨rfl, rfl, rfl, compose_sentinel_passthrough displayC .tnum "sum"
    [("label", GVal.str "L")] subStInit GVal.loading rfl rfl rfl⟩

/-- C3: on the subscribe path of a constructed component, with no
short-circuiting sentinel among the inputs: a pending run result delivers
the Loading sentinel synchronously first, then the resolved value on
success, or an Error sentinel wrapping the failure on rejection — and
nothing further when the subscription was cancelled before settlement; an
immediate run result is delivered exactly once, with no Loading sentinel. -/
theorem component_subscribe_delivery (sk : List String)
    (runf : Props → Except String (MP GVal)) (props : Props)
    (h : shortCircuitValue sk props = none) :
    (∀ v, runf props = .ok (.pending (.resolved v)) →
      componentSubscribeTrace sk runf props false = .ok [.loading, v])
    ∧ (∀ e, runf props = .ok (.pending (.rejected e)) →
      componentSubscribeTrace sk runf props false
        = .ok [.loading, .errv 0 e])
    ∧ (∀ s, runf props = .ok (.pending s) →
      componentSubscribeTrace sk runf props true = .ok [.loading])
    ∧ (∀ v b, runf props = .ok (.now v) →
      componentSubscribeTrace sk runf props b = .ok [v]) := by
  refine ⟨fun v hv => ?_, fun e he => ?_, fun s hs => ?_, fun v b hv => ?_⟩ <;>
    simp [componentSubscribeTrace, h, settleVal, *]

/-- Witness for C3 at the spec's async-loading scenario (`Fetch` subscribed
with a string id, resolving with its length). -/
theorem component_subscribe_delivery_w :
    shortCircuitValue [] [("id", GVal.str "hello")] = none
    ∧ ((∀ v, fetchRun [("id", GVal.str "hello")]
          = .ok (.pending (.resolved v)) →
        componentSubscribeTrace [] fetchRun [("id", GVal.str "hello")] false
          = .ok [.loading, v])
      ∧ (∀ e, fetchRun [("id", GVal.str "hello")]
          = .ok (.pending (.rejected e)) →
        componentSubscribeTrace [] fetchRun [("id", GVal.str "hello")] false
          = .ok [.loading, .errv 0 e])
      ∧ (∀ s, fetchRun [("id", GVal.str "hello")] = .ok (.pending s) →
        componentSubscribeTrace [] fetchRun [("id", GVal.str "hello")] true
          = .ok [.loading])
      ∧ (∀ v b, fetchRun [("id", GVal.str "hello")] = .ok (.now v) →
        componentSubscribeTrace [] fetchRun [("id", GVal.str "hello")] b
          = .ok [v])) :=
  ⟨rfl, component_subscribe_delivery [] fetchRun [("id", GVal.str "hello")]
    rfl⟩

/-- C4: on an active composed subscription, a delivery reference-identical to
the immediately preceding one is discarded — the state is unchanged and the
reaction is `skip`, so `into` is invoked at most once for the pair and the
callback receives one downstream value, not two; whereas any delivery that is
not reference-identical to the previous one (in particular a structurally
equal but distinct object) is not deduplicated. -/
theorem compose_dedup_law (into : Component) (fromOut : Ty) (key : String)
    (parsed : Props) (st : ComposeSubSt) (v : GVal)
    (hact : st.disposed = false) :
    composeStep into fromOut key parsed
        (composeStep into fromOut key parsed st v).1 v
      = ((composeStep into fromOut key parsed st v).1, .skip)
    ∧ (composeProcess into fromOut key parsed st [v, v]).2
      = [(composeStep into fromOut key parsed st v).2, .skip]
    ∧ (∀ st2 w, st2.disposed = false → st2.last = some v → jsEq w v = false →
      (composeStep into fromOut key parsed st2 w).2 ≠ .skip) := by
  have key1 : composeStep into fromOut key parsed
      (composeStep into fromOut key parsed st v).1 v
      = ((composeStep into fromOut key parsed st v).1, .skip) := by
    by_cases h2 : dedupHit st.last v = true
    · rw [composeStep_dedup into fromOut key parsed st v hact h2]
      exact composeStep_dedup into fromOut key parsed st v hact h2
    · have h2f : dedupHit st.last v = false := by simpa using h2
      have hs := composeStep_state into fromOut key parsed st v hact h2f
      exact composeStep_dedup into fromOut key parsed _ v hs.1
        (by simp [dedupHit, hs.2, jsEq_refl v])
  refine ⟨key1, ?_, fun st2 w h1 h2 h3 => ?_⟩
  · simp [composeProcess, key1]
  · exact composeStep_not_skip into fromOut key parsed st2 w h1
      (by simp [dedupHit, h2, h3])

/-- Witness for C4: a concrete object delivered twice is deduplicated, while
a structurally equal object with a different identity is not. -/
theorem compose_dedup_law_w :
    subStInit.disposed = false
    ∧ jsEq (GVal.obj 1 7) (GVal.obj 0 7) = false
    ∧ (composeStep displayC .tnum "sum" [("label", GVal.str "L")]
          (composeStep displayC .tnum "sum" [("label", GVal.str "L")]
            subStInit (GVal.obj 0 7)).1 (GVal.obj 0 7)
        = ((composeStep displayC .tnum "sum" [("label", GVal.str "L")]
            subStInit (GVal.obj 0 7)).1, .skip)
      ∧ (composeProcess displayC .tnum "sum" [("label", GVal.str "L")]
          subStInit [GVal.obj 0 7, GVal.obj 0 7]).2
        = [(composeStep displayC .tnum "sum" [("label", GVal.str "L")]
            subStInit (GVal.obj 0 7)).2, .skip]
      ∧ (∀ st2 w, st2.disposed = false → st2.last = some (GVal.obj 0 7) →
          jsEq w (GVal.obj 0 7) = false →
          (composeStep displayC .tnum "sum" [("label", GVal.str "L")]
            st2 w).2 ≠ .skip)) :=
  ⟨rfl, by decide, compose_dedup_law displayC .tnum "sum"
    [("label", GVal.str "L")] subStInit (GVal.obj 0 7) rfl⟩

/-- C5 counterexample: a component whose run throws synchronously; on the
subscribe path the computation error escapes `subscribe` as a raised
exception rather than being recovered into an Error sentinel delivered to
the callback as a value. -/
theorem subscribe_sync_throw_cex :
    componentSubscribeTrace [] throwRun [] false = .error "boom" := rfl

/-- C5 (amended): on the subscribe path, an asynchronous rejection of the
component's own run logic is recovered into an Error sentinel at the point
of origin and delivered to the callback as a value; a synchronous throw from
run, however, propagates out of `subscribe` to its caller as a raised
exception. -/
theorem subscribe_error_recovery (sk : List String)
    (runf : Props → Except String (MP GVal)) (props : Props)
    (h : shortCircuitValue sk props = none) :
    (∀ e, runf props = .ok (.pending (.rejected e)) →
      componentSubscribeTrace sk runf props false
        = .ok [.loading, .errv 0 e])
    ∧ (∀ e, runf props = .error e →
      componentSubscribeTrace sk runf props false = .error e) := by
  refine ⟨fun e he => ?_, fun e he => ?_⟩ <;>
    simp [componentSubscribeTrace, h, settleVal, *]

/-- Witness for the amended C5 at a concrete rejecting component. -/
theorem subscribe_error_recovery_w :
    shortCircuitValue [] [] = none
    ∧ ((∀ e, rejectRun [] = .ok (.pending (.rejected e)) →
        componentSubscribeTrace [] rejectRun [] false
          = .ok [.loading, .errv 0 e])
      ∧ (∀ e, rejectRun [] = .error e →
        componentSubscribeTrace [] rejectRun [] false = .error e)) :=
  ⟨rfl, subscribe_error_recovery [] rejectRun [] rfl⟩

/-- A name absent from a schema's keys is counted zero times. -/
theorem keyCount_eq_zero (s : Schema) (k : String)
    (h : (lookupTy s k).isSome = false) : keyCount s k = 0 := by
  induction s with
  | nil => rfl
  | cons kv rest ih =>
    by_cases hk : kv.1 = k
    · rw [lookupTy] at h; simp [hk] at h
    · rw [lookupTy] at h
      simp only [hk, if_false] at h
      simp [keyCount, hk, ih h]

/-- In a schema with distinct keys, a bound name appears exactly once. -/
theorem keyCount_eq_one (s : Schema) (k : String)
    (hnd : (s.map Prod.fst).Nodup) (h : (lookupTy s k).isSome = true) :
    keyCount s k = 1 := by
  induction s with
  | nil => simp [lookupTy] at h
  | cons kv rest ih =>
    rw [List.map_cons, List.nodup_cons] at hnd
    by_cases hk : kv.1 = k
    · have hz : keyCount rest k = 0 := by
        apply keyCount_eq_zero
        cases hs : (lookupTy rest k).isSome
        · rfl
        · rw [lookupTy_isSome_iff_mem] at hs
          exact absurd (hk ▸ hs) hnd.1
      simp [keyCount, hk, hz]
    · rw [lookupTy] at h
      simp only [hk, if_false] at h
      simp [keyCount, hk, ih hnd.2 h]

/-- Key counting distributes over append. -/
theorem keyCount_append (a b : Schema) (k : String) :
    keyCount (a ++ b) k = keyCount a k + keyCount b k := by
  induction a with
  | nil => simp [keyCount]
  | cons kv rest ih => simp [keyCount, ih]; omega

/-- The override map of `mergeShape` preserves key multiplicity. -/
theorem keyCount_map_override (ir fs : Schema) (k : String) :
    keyCount (ir.map (fun kv => (kv.1, (lookupTy fs kv.1).getD kv.2))) k
      = keyCount ir k := by
  induction ir with
  | nil => rfl
  | cons kv rest ih => simp [keyCount, ih]

/-- A name bound in the remainder contributes nothing to the filtered
`from`-only half of `mergeShape`. -/
theorem keyCount_filter_zero (ir fs : Schema) (k : String)
    (h : (lookupTy ir k).isSome = true) :
    keyCount (fs.filter (fun kv => (lookupTy ir kv.1).isNone)) k = 0 := by
  induction fs with
  | nil => rfl
  | cons kv rest ih =>
    by_cases hk : kv.1 = k
    · have : (lookupTy ir kv.1).isNone = false := by
        rw [hk]
        cases hs : lookupTy ir k
        · rw [hs] at h; simp at h
        · simp
      simp [List.filter, this, ih]
    · by_cases hp : (lookupTy ir kv.1).isNone = true
      · simp [List.filter, hp, keyCount, hk, ih]
      · simp only [Bool.not_eq_true] at hp
        simp [List.filter, hp, ih]

/-- C6: when a name is shared by `into`'s remaining schema (after removing
`key`) and `from`'s schema with incompatible type descriptors, the compose
construction itself throws a configuration error at build time; with
compatible descriptors construction succeeds, the shared name appears once
in the composed schema, and the single supplied value is routed both into
`from`'s input record and into `into`'s reassembled input record. -/
theorem compose_overlap_config (into frm : Component) (key k : String)
    (hnd : ((intoRemainder into.schema key).map Prod.fst).Nodup) :
    (overlapIncompatible (intoRemainder into.schema key) frm.schema = true →
      composeSingle into frm key = .error composeErrMsg)
    ∧ (overlapIncompatible (intoRemainder into.schema key) frm.schema
        = false →
      composeSingle into frm key = .ok (composeSingleC into frm key)
      ∧ ((lookupTy (intoRemainder into.schema key) k).isSome = true →
          (lookupTy frm.schema k).isSome = true →
          keyCount (composeSingleC into frm key).schema k = 1)
      ∧ (∀ parsed w val, ¬ k = key → lookupProp parsed k = some val →
          (lookupTy frm.schema k).isSome = true →
          (lookupTy into.schema k).isSome = true →
          lookupProp (fromInputOf frm.schema parsed) k = some val
          ∧ lookupProp (buildIntoInput into.schema key parsed w) k
            = some val)) := by
  refine ⟨fun hbad => ?_, fun hok => ⟨?_, fun hin hfrom => ?_,
    fun parsed w val hk hval hfrom hin => ⟨?_, ?_⟩⟩⟩
  · simp [composeSingle, hbad]
  · simp [composeSingle, hok]
  · show keyCount (composedSchema into frm key) k = 1
    unfold composedSchema mergeShape
    rw [keyCount_append, keyCount_map_override,
      keyCount_eq_one (intoRemainder into.schema key) k hnd hin,
      keyCount_filter_zero (intoRemainder into.schema key) frm.schema k hin]
  · rw [lookupProp_fromInputOf]
    cases hf : lookupTy frm.schema k
    · rw [hf] at hfrom; simp at hfrom
    · simp [hval]
  · rw [lookupProp_buildIntoInput]
    simp [hk, hin, hval]

/-- Witness for C6: a compatible shared name `x` between the Card remainder
and a provider's schema; the shared name is single-sourced. -/
theorem compose_overlap_config_w :
    ((intoRemainder cardC.schema "k").map Prod.fst).Nodup
    ∧ ((overlapIncompatible (intoRemainder cardC.schema "k") provXC.schema
          = true →
        composeSingle cardC provXC "k" = .error composeErrMsg)
      ∧ (overlapIncompatible (intoRemainder cardC.schema "k") provXC.schema
          = false →
        composeSingle cardC provXC "k" = .ok (composeSingleC cardC provXC "k")
        ∧ ((lookupTy (intoRemainder cardC.schema "k") "x").isSome = true →
            (lookupTy provXC.schema "x").isSome = true →
            keyCount (composeSingleC cardC provXC "k").schema "x" = 1)
        ∧ (∀ parsed w val, ¬ "x" = "k" → lookupProp parsed "x" = some val →
            (lookupTy provXC.schema "x").isSome = true →
            (lookupTy cardC.schema "x").isSome = true →
            lookupProp (fromInputOf provXC.schema parsed) "x" = some val
            ∧ lookupProp (buildIntoInput cardC.schema "k" parsed w) "x"
              = some val))) :=
  ⟨by decide, compose_overlap_config cardC provXC "k" "x" (by decide)⟩

/-- The future-edge run trace has one entry per external trigger. -/
theorem futureRunTrace_length (frm : Component) (key : String)
    (i : GVal) (ps : List Props) :
    (futureRunTrace frm key i ps).length = ps.length := by
  induction ps generalizing i with
  | nil => rfl
  | cons p ps ih => simp [futureRunTrace, ih]

/-- The first entry of a nonempty future-edge run trace observes the
accumulator the sequence started with. -/
theorem futureRunTrace_head_obs (frm : Component) (key : String)
    (i : GVal) (ps : List Props)
    (h : 0 < (futureRunTrace frm key i ps).length) :
    ((futureRunTrace frm key i ps).get ⟨0, h⟩).1 = i := by
  cases ps with
  | nil => simp [futureRunTrace] at h
  | cons p ps => simp [futureRunTrace]

/-- Each later invocation of a future-edge run sequence observes exactly the
accumulator left by the previous one (its resolved output when it resolved,
the unchanged accumulator when it threw or rejected). -/
theorem futureRunTrace_chain (frm : Component) (key : String) :
    ∀ (ps : List Props) (i : GVal) (n : Nat)
      (hn : n + 1 < (futureRunTrace frm key i ps).length),
      ((futureRunTrace frm key i ps).get ⟨n + 1, hn⟩).1
        = nextAccRun ((futureRunTrace frm key i ps).get ⟨n, by omega⟩).1
            ((futureRunTrace frm key i ps).get ⟨n, by omega⟩).2 := by
  intro ps
  induction ps with
  | nil => intro i n hn; simp [futureRunTrace] at hn
  | cons p ps ih =>
    intro i n hn
    cases n with
    | zero =>
      have h0 : 0 < (futureRunTrace frm key
          (futureStep frm key i p).2 ps).length := by
        rw [futureRunTrace_length] at hn ⊢
        simp at hn
        omega
      exact futureRunTrace_head_obs frm key (futureStep frm key i p).2 ps h0
    | succ m =>
      have hm : m + 1 < (futureRunTrace frm key
          (futureStep frm key i p).2 ps).length := by
        rw [futureRunTrace_length] at hn ⊢
        simp at hn
        omega
      exact ih (futureStep frm key i p).2 m hm

/-- C7: the future-edge feedback law.  On the run path: the first invocation
observes `key = initial`; every invocation calls `from` on the props
extended with the current accumulator and returns `from`'s result verbatim;
each later invocation observes the previous invocation's resolved output
(per `nextAccRun`); there is exactly one invocation per external trigger.
On the subscribe path: the accumulator is read once at subscribe time;
every delivered value is forwarded to the callback unchanged; the final
accumulator is the fold of the non-sentinel deliveries — deliveries
themselves never invoke `from` again. -/
theorem future_feedback_law (frm : Component) (key : String) :
    (∀ i p ps, (futureRunTrace frm key i (p :: ps)).head?
        = some (i, frm.run (setProp p key i)))
    ∧ (∀ i p, lookupProp (setProp p key i) key = some i)
    ∧ (∀ i ps, (futureRunTrace frm key i ps).length = ps.length)
    ∧ (∀ i ps n (hn : n + 1 < (futureRunTrace frm key i ps).length),
        ((futureRunTrace frm key i ps).get ⟨n + 1, hn⟩).1
          = nextAccRun ((futureRunTrace frm key i ps).get ⟨n, by omega⟩).1
              ((futureRunTrace frm key i ps).get ⟨n, by omega⟩).2)
    ∧ (∀ acc vs, (futureSubProcess acc vs).1 = vs)
    ∧ (∀ acc vs, (futureSubProcess acc vs).2
        = vs.foldl (fun a w => if isSentinel w then a else w) acc)
    ∧ (∀ props acc, lookupProp (futureSubscribeProps props key acc) key
        = some acc) := by
  refine ⟨?_, ?_, ?_, ?_, ?_, ?_, ?_⟩
  · intro i p ps
    simp [futureRunTrace, futureStep]
  · intro i p
    exact lookupProp_setProp_self p key i
  · intro i ps
    exact futureRunTrace_length frm key i ps
  · intro i ps n hn
    exact futureRunTrace_chain frm key ps i n hn
  · intro acc vs
    induction vs generalizing acc with
    | nil => rfl
    | cons v vs ih => simp [futureSubProcess, futureDeliverStep, ih]
  · intro acc vs
    induction vs generalizing acc with
    | nil => rfl
    | cons v vs ih => simp [futureSubProcess, futureDeliverStep, ih]
  · intro props acc
    exact lookupProp_setProp_self props key acc

/-- Witness for C7 at the Counter feedback example: the second invocation
observes the first invocation's resolved output. -/
theorem future_feedback_law_w :
    ((futureRunTrace counterC "prev" (GVal.num 0)
        [[("x", GVal.num 1)], [("x", GVal.num 2)]]).get ⟨1, by decide⟩).1
      = nextAccRun
          ((futureRunTrace counterC "prev" (GVal.num 0)
            [[("x", GVal.num 1)], [("x", GVal.num 2)]]).get
              ⟨0, by decide⟩).1
          ((futureRunTrace counterC "prev" (GVal.num 0)
            [[("x", GVal.num 1)], [("x", GVal.num 2)]]).get
              ⟨0, by decide⟩).2 :=
  (future_feedback_law counterC "prev").2.2.2.1 (GVal.num 0)
    [[("x", GVal.num 1)], [("x", GVal.num 2)]] 0 (by decide)

/-- C8: cleanup is idempotent — a second invocation of a subscription's
cleanup leaves the cleanup state exactly where the first left it, raises
nothing (cleanup is a total state transformer), disposes every child
subscription transitively, and after cleanup no further callback delivery is
possible: a disposed compose subscription reacts to any delivery with
`skip`, and a cancelled async leaf delivers only the Loading sentinel it
already emitted. -/
theorem cleanup_idempotent (t : SubTree) (into : Component) (fromOut : Ty)
    (key : String) (parsed : Props) (st : ComposeSubSt) (v : GVal)
    (sk : List String) (runf : Props → Except String (MP GVal))
    (props : Props) (s : Settle GVal)
    (hdisp : st.disposed = true)
    (hsc : shortCircuitValue sk props = none)
    (hrun : runf props = .ok (.pending s)) :
    cleanupSub (cleanupSub t) = cleanupSub t
    ∧ allDisposed (cleanupSub t) = true
    ∧ canDeliver (cleanupSub t) = false
    ∧ composeStep into fromOut key parsed st v = (st, .skip)
    ∧ componentSubscribeTrace sk runf props true = .ok [.loading] := by
  refine ⟨?_, ?_, ?_, ?_, ?_⟩
  · induction t with
    | leafNoop => rfl
    | leafAsync c => rfl
    | cell r => rfl
    | compN d f ihf => simp [cleanupSub, ihf]
    | compS d f i ihf ihi => simp [cleanupSub, ihf, ihi]
  · induction t with
    | leafNoop => rfl
    | leafAsync c => rfl
    | cell r => rfl
    | compN d f ihf => simp [cleanupSub, allDisposed, ihf]
    | compS d f i ihf ihi => simp [cleanupSub, allDisposed, ihf, ihi]
  · induction t with
    | leafNoop => rfl
    | leafAsync c => rfl
    | cell r => rfl
    | compN d f ihf => simp [cleanupSub, canDeliver, ihf]
    | compS d f i ihf ihi => simp [cleanupSub, canDeliver, ihf, ihi]
  · exact composeStep_disposed into fromOut key parsed st v hdisp
  · simp [componentSubscribeTrace, hsc, hrun]

/-- Witness for C8 on a concrete compose subscription tree with an async
leaf child and a state-cell child. -/
theorem cleanup_idempotent_w :
    ({ disposed := true, last := none, hasInto := false } :
        ComposeSubSt).disposed = true
    ∧ shortCircuitValue [] [("id", GVal.str "ab")] = none
    ∧ fetchRun [("id", GVal.str "ab")]
        = .ok (.pending (.resolved (.num 2)))
    ∧ (cleanupSub (cleanupSub
          (SubTree.compS false (.leafAsync false) (.cell true)))
        = cleanupSub (SubTree.compS false (.leafAsync false) (.cell true))
      ∧ allDisposed (cleanupSub
          (SubTree.compS false (.leafAsync false) (.cell true))) = true
      ∧ canDeliver (cleanupSub
          (SubTree.compS false (.leafAsync false) (.cell true))) = false
      ∧ composeStep displayC .tnum "sum" [("label", GVal.str "L")]
          { disposed := true, last := none, hasInto := false } (GVal.num 1)
        = ({ disposed := true, last := none, hasInto := false }, .skip)
      ∧ componentSubscribeTrace [] fetchRun [("id", GVal.str "ab")] true
        = .ok [.loading]) :=
  ⟨rfl, rfl, rfl, cleanup_idempotent
    (SubTree.compS false (.leafAsync false) (.cell true))
    displayC .tnum "sum" [("label", GVal.str "L")]
    { disposed := true, last := none, hasInto := false } (GVal.num 1)
    [] fetchRun [("id", GVal.str "ab")] (.resolved (.num 2)) rfl rfl rfl⟩

/-- C9: with an allocation-fresh template, the instances built by the first
and second subscribe calls on an `instantiate` wrapper have disjoint state
cells, both are disjoint from the eagerly built probe instance, and a
state-cell write performed through the first subscription's instance leaves
every cell of the second subscription's instance unchanged — the two
subscriptions can never observe each other's state mutations. -/
theorem instantiate_isolation (t : Template) (ht : TemplateFresh t)
    (c0 : Nat) :
    (∀ a ∈ (instantiateInstance t (t c0).2).1.cells,
      ∀ b ∈ (instantiateInstance t (t (t c0).2).2).1.cells, a ≠ b)
    ∧ (∀ a ∈ (instantiateProbe t c0).1.cells,
      ∀ b ∈ (instantiateInstance t (t c0).2).1.cells, a ≠ b)
    ∧ (∀ (hp : Heap) (a : Nat) (w : GVal) (b : Nat),
        a ∈ (instantiateInstance t (t c0).2).1.cells →
        b ∈ (instantiateInstance t (t (t c0).2).2).1.cells →
        writeCell hp a w b = hp b) := by
  refine ⟨fun a ha b hb => ?_, fun a ha b hb => ?_,
    fun hp a w b ha hb => ?_⟩
  · have hA := (ht (t c0).2).2 a ha
    have hB := (ht (t (t c0).2).2).2 b hb
    omega
  · have hA := (ht c0).2 a ha
    have hB := (ht (t c0).2).2 b hb
    omega
  · have hA := (ht (t c0).2).2 a ha
    have hB := (ht (t (t c0).2).2).2 b hb
    have hab : ¬ b = a := by omega
    simp [writeCell, hab]

/-- The one-cell template only uses freshly allocated identities. -/
theorem oneCellTemplate_fresh : TemplateFresh oneCellTemplate := by
  intro c
  constructor
  · simp [oneCellTemplate]
  · intro id hid
    simp only [oneCellTemplate] at hid ⊢
    simp at hid
    omega

/-- Witness for C9 at the one-cell template wrapped at counter 0. -/
theorem instantiate_isolation_w :
    TemplateFresh oneCellTemplate
    ∧ ((∀ a ∈ (instantiateInstance oneCellTemplate
          (oneCellTemplate 0).2).1.cells,
        ∀ b ∈ (instantiateInstance oneCellTemplate
          (oneCellTemplate (oneCellTemplate 0).2).2).1.cells, a ≠ b)
      ∧ (∀ a ∈ (instantiateProbe oneCellTemplate 0).1.cells,
        ∀ b ∈ (instantiateInstance oneCellTemplate
          (oneCellTemplate 0).2).1.cells, a ≠ b)
      ∧ (∀ (hp : Heap) (a : Nat) (w : GVal) (b : Nat),
          a ∈ (instantiateInstance oneCellTemplate
            (oneCellTemplate 0).2).1.cells →
          b ∈ (instantiateInstance oneCellTemplate
            (oneCellTemplate (oneCellTemplate 0).2).2).1.cells →
          writeCell hp a w b = hp b)) :=
  ⟨oneCellTemplate_fresh,
    instantiate_isolation oneCellTemplate oneCellTemplate_fresh 0⟩

/-- C10: the future-edge accumulator is one shared cell.  After a run call
whose `from` result resolves (immediately or as a promise) with `v`, any
later run or subscribe on the same component observes `key = v`; after a
non-sentinel delivery `v` on any one of its subscriptions, any later run or
subscribe observes `key = v`; and event sequences coming from different run
calls and subscriptions compose on the single cell (the accumulator after
`o1 ++ o2` is the accumulator after `o2` applied to the result of `o1`). -/
theorem future_shared_accumulator (frm : Component) (key : String) :
    (∀ acc p v p2, frm.run (setProp p key acc) = .ok (.now v) →
      lookupProp (setProp p2 key
        (futWorldStep frm key acc (.runCall p))) key = some v)
    ∧ (∀ acc p v p2,
      frm.run (setProp p key acc) = .ok (.pending (.resolved v)) →
      lookupProp (setProp p2 key
        (futWorldStep frm key acc (.runCall p))) key = some v)
    ∧ (∀ acc v p2, isSentinel v = false →
      lookupProp (setProp p2 key
        (futWorldStep frm key acc (.deliverOn v))) key = some v
      ∧ futureSubscribeProps p2 key
          (futWorldStep frm key acc (.deliverOn v)) = setProp p2 key v)
    ∧ (∀ acc o1 o2, futWorld frm key acc (o1 ++ o2)
        = futWorld frm key (futWorld frm key acc o1) o2) := by
  refine ⟨fun acc p v p2 h => ?_, fun acc p v p2 h => ?_,
    fun acc v p2 hv => ⟨?_, ?_⟩, fun acc o1 o2 => ?_⟩
  · simp [futWorldStep, futureStep, nextAccRun, h, lookupProp_setProp_self]
  · simp [futWorldStep, futureStep, nextAccRun, h, lookupProp_setProp_self]
  · simp [futWorldStep, futureDeliverStep, hv, lookupProp_setProp_self]
  · simp [futureSubscribeProps, futWorldStep, futureDeliverStep, hv]
  · simp [futWorld, List.foldl_append]

/-- Witness for C10: a Counter run call resolving with 1, after which a
subsequent call observes `prev = 1`. -/
theorem future_shared_accumulator_w :
    counterC.run (setProp [("x", GVal.num 1)] "prev" (GVal.num 0))
      = .ok (.now (GVal.num 1))
    ∧ lookupProp (setProp [("x", GVal.num 5)] "prev"
        (futWorldStep counterC "prev" (GVal.num 0)
          (.runCall [("x", GVal.num 1)]))) "prev" = some (GVal.num 1) :=
  ⟨rfl, (future_shared_accumulator counterC "prev").1 (GVal.num 0)
    [("x", GVal.num 1)] (GVal.num 1) [("x", GVal.num 5)] rfl⟩

end Graft
